import Mathlib

/-!
# The OpenVDB test-package example (`test_package/example.cpp`)

A shallow embedding of `main` from `example.cpp` and a verification of its
command-line contract.

The program is a linear sequence of calls into the OpenVDB library wrapped in a
`try`/`catch`.  The library is not part of the repository, so it is a parameter
of the embedding (`Library`): every call the program makes may either return or
raise, as decided by the library from the history of the calls made so far.
-/

namespace VdbExample

/-! ## Data model -/

/-- Value raised by a `throw` inside a library call: either an object whose class
derives from `std::exception` (carrying its `what()` text), which the first
handler of `main` catches, or any other value, which only `catch (...)` catches. -/
inductive Thrown where
  | stdException (what : String)
  | other
deriving DecidableEq

/-- The library calls that `main` makes, in the notation of the source:
`openvdb::initialize()`, the constructor `openvdb::io::File file{filename}`,
`file.open()`, `file.beginName()`, `file.endName()`, `name_iter.gridName()`,
`++name_iter`, `file.readGrid(name)` and `file.close()`. -/
inductive Call where
  | initializeLib
  | fileCtor (filename : String)
  | openFile
  | beginName
  | endName
  | gridName
  | increment
  | readGrid (name : String)
  | close
deriving DecidableEq

/-- One library call as it happened in a run: the call and, when it did not
return, the value it raised. -/
structure Event where
  call : Call
  raised : Option Thrown
deriving DecidableEq

/-- The library and the file system behind it, as far as `main` observes them.
`raises history c` is the value raised by call `c` when made after the calls in
`history` (oldest first), or `none` when the call returns.  `directory path` is
the sequence of grid names that the name iterator of the file at `path`
yields, in iteration order.  `grid path name` is the grid that a returning
`readGrid(name)` hands back. -/
structure Library (Grid : Type) where
  raises : List Event → Call → Option Thrown
  directory : String → List String
  grid : String → String → Grid

/-- An output stream (`std::cout`, `std::cerr`) as the lines completed by
`std::endl`, oldest first, and the text written since the last `std::endl`. -/
structure OStream where
  lines : List String
  pending : String
deriving DecidableEq

/-- The stream after `stream << s`. -/
def OStream.write (o : OStream) (s : String) : OStream :=
  { o with pending := o.pending ++ s }

/-- The stream after `stream << std::endl`. -/
def OStream.endl (o : OStream) : OStream :=
  { lines := o.lines ++ [o.pending], pending := "" }

/-- The stream before anything is written. -/
def OStream.empty : OStream :=
  { lines := [], pending := "" }

/-- Everything observable of a run so far: the library calls made (oldest first)
and the two output streams. -/
structure World where
  trace : List Event
  cout : OStream
  cerr : OStream
deriving DecidableEq

/-- The world at program start. -/
def World.start : World :=
  { trace := [], cout := OStream.empty, cerr := OStream.empty }

/-- Record a library call in the trace. -/
def World.record (w : World) (c : Call) (r : Option Thrown) : World :=
  { w with trace := w.trace ++ [⟨c, r⟩] }

/-- The calls of the trace, without their outcomes. -/
def World.calls (w : World) : List Call :=
  w.trace.map Event.call

/-- Result of running a piece of the `try` block: it either completes with a
value or is left by an exception in flight. -/
inductive Outcome (α : Type) where
  | ret (a : α) (w : World)
  | thrown (e : Thrown) (w : World)

/-- A piece of the `try` block: a computation over the world that may raise. -/
def Prog (α : Type) : Type :=
  World → Outcome α

/-- Sequencing of statements: an exception in flight skips what follows. -/
def Prog.bind {α β : Type} (m : Prog α) (f : α → Prog β) : Prog β :=
  fun w =>
    match m w with
    | .ret a w' => f a w'
    | .thrown e w' => .thrown e w'

instance : Monad Prog where
  pure a := fun w => .ret a w
  bind := Prog.bind

/-- A library call `c` whose value, when it returns, is `r`. -/
def libCall {α Grid : Type} (lib : Library Grid) (c : Call) (r : α) : Prog α :=
  fun w =>
    match lib.raises w.trace c with
    | none => .ret r (w.record c none)
    | some e => .thrown e (w.record c (some e))

/-- The statement part `std::cout << s`. -/
def coutWrite (s : String) : Prog Unit :=
  fun w => .ret () { w with cout := w.cout.write s }

/-- The statement part `std::cout << std::endl`. -/
def coutEndl : Prog Unit :=
  fun w => .ret () { w with cout := w.cout.endl }

/-! ## The program -/

/-- Body of the `for` loop of `main` (lines 32-38) at an iterator that points to
the directory entry `n`.  Operands of `<<` are evaluated left to right, so the
literal is written before `gridName()` is called for the rest of the line. -/
def loopBody {Grid : Type} (lib : Library Grid) (filename : String) (n : String)
    (base_grid : Option Grid) : Prog (Option Grid) := do
  let name ← libCall lib .gridName n
  if name = "ls_icosahedron" then
    let arg ← libCall lib .gridName n
    let g ← libCall lib (.readGrid arg) (lib.grid filename arg)
    coutWrite "Found grid "
    let shown ← libCall lib .gridName n
    coutWrite shown
    coutEndl
    pure (some g)
  else
    coutWrite "skipping grid "
    let shown ← libCall lib .gridName n
    coutWrite shown
    coutEndl
    pure base_grid

/-- The `for` loop of `main` (lines 30-39).  The iterator `name_iter` is the part
of the directory not yet visited; `name_iter != file.endName()` calls
`endName()` and holds while that part is non-empty; `++name_iter` drops its
first entry. -/
def nameLoop {Grid : Type} (lib : Library Grid) (filename : String) :
    List String → Option Grid → Prog (Option Grid)
  | [], base_grid => do
    libCall lib .endName ()
    pure base_grid
  | n :: name_iter, base_grid => do
    libCall lib .endName ()
    let base_grid ← loopBody lib filename n base_grid
    libCall lib .increment ()
    nameLoop lib filename name_iter base_grid

/-- Lines 29-39 of `main`: the declaration of `base_grid` (a null pointer) and the
`for` statement, whose initialiser calls `file.beginName()`.  Its value is
`base_grid` after the loop. -/
def scanDirectory {Grid : Type} (lib : Library Grid) (filename : String) :
    Prog (Option Grid) := do
  let base_grid : Option Grid := none
  let name_iter ← libCall lib .beginName (lib.directory filename)
  nameLoop lib filename name_iter base_grid

/-- The `try` block of `main` (lines 19-41).  Its value is `base_grid` as it
stands when the block is left normally. -/
def tryBlock {Grid : Type} (lib : Library Grid) (filename : String) :
    Prog (Option Grid) := do
  libCall lib .initializeLib ()
  libCall lib (.fileCtor filename) ()
  libCall lib .openFile ()
  let base_grid ← scanDirectory lib filename
  libCall lib .close ()
  pure base_grid

/-- A finished run of `main`: the value it returns and the final world. -/
structure Run where
  code : Int
  world : World
deriving DecidableEq

/-- The two `catch` handlers of `main` (lines 42-48). -/
def handler (e : Thrown) (w : World) : Run :=
  match e with
  | .stdException what =>
    { code := -1, world := { w with cerr := ((w.cerr.write "EXCEPTION: ").write what).endl } }
  | .other =>
    { code := -1, world := { w with cerr := (w.cerr.write "UNKNOWN EXCEPTION").endl } }

/-- The function `main` of `example.cpp`.  The argument vector is the list of
the strings `argv[0] .. argv[argc-1]`, so `argc` is its length.  `return 1`
follows the usage statement of line 10 unconditionally.  For `argc = 0`,
`argv[0]` is the null pointer that ends `argv`: the stream has received
`USAGE: ` when the null `const char*` is inserted, the insertion puts the
stream in a failed state, and the rest of the statement writes nothing. -/
def main {Grid : Type} (lib : Library Grid) (argv : List String) : Option Run :=
  if argv.length ≠ 2 then
    match argv[0]? with
    | none =>
      some { code := 1,
             world := { World.start with cerr := OStream.empty.write "USAGE: " } }
    | some prog =>
      some { code := 1,
             world := { World.start with
               cerr := (((OStream.empty.write "USAGE: ").write prog).write " <file.vdb>").endl } }
  else
    match argv[1]? with
    | none => none
    | some filename =>
      match tryBlock lib filename World.start with
      | .ret _ w => some { code := 0, world := w }
      | .thrown e w => some (handler e w)

/-- The exit status the environment sees when it keeps the low 8 bits of the
value returned by `main`. -/
def exitStatus (code : Int) : Int :=
  code % 256

/-! ## The direct read named in the source comment -/

/-- The value or the failure of an outcome, without the world. -/
def Outcome.result {α : Type} : Outcome α → Except Thrown α
  | .ret a _ => .ok a
  | .thrown e _ => .error e

/-- The result of a call that raises `o`, or returns `a` when `o` is `none`. -/
def resultOf {α : Type} (o : Option Thrown) (a : α) : Except Thrown α :=
  match o with
  | none => .ok a
  | some e => .error e

/-- The replacement that the comment of lines 26-28 names for the declaration of
`base_grid` and the loop: the single call
`base_grid = file.readGrid("ls_icosahedron")`. -/
def directRead {Grid : Type} (lib : Library Grid) (filename : String) :
    Prog (Option Grid) := do
  let g ← libCall lib (.readGrid "ls_icosahedron") (lib.grid filename "ls_icosahedron")
  pure (some g)

/-- The world in which `initialize`, the `File` constructor and `open` have
returned and nothing else has happened. -/
def openedWorld (filename : String) : World :=
  { World.start with
    trace := [⟨.initializeLib, none⟩, ⟨.fileCtor filename, none⟩, ⟨.openFile, none⟩] }

/-! ## The run as a list of actions

The control flow of the `try` block depends on the directory only, so the block
is the execution, up to the first call that raises, of a fixed list of
actions.  The list is a device of the proofs below; `tryBlock_eq_exec` ties it
to the program. -/

/-- One step of the `try` block: a library call whose value is not kept, the
statement part `base_grid = file.readGrid(name)`, or a write to `std::cout`. -/
inductive Action where
  | call (c : Call)
  | read (name : String)
  | out (s : String)
  | endl
deriving DecidableEq

/-- Run one action. -/
def perform {Grid : Type} (lib : Library Grid) (filename : String) :
    Action → Option Grid → Prog (Option Grid)
  | .call c, base_grid => do
    libCall lib c ()
    pure base_grid
  | .read name, _ => do
    let g ← libCall lib (.readGrid name) (lib.grid filename name)
    pure (some g)
  | .out s, base_grid => do
    coutWrite s
    pure base_grid
  | .endl, base_grid => do
    coutEndl
    pure base_grid

/-- Run a list of actions in order. -/
def exec {Grid : Type} (lib : Library Grid) (filename : String) :
    List Action → Option Grid → Prog (Option Grid)
  | [], base_grid => pure base_grid
  | a :: as, base_grid => perform lib filename a base_grid >>= exec lib filename as

/-- Actions of one pass through the loop body at the directory entry `n`. -/
def bodyActions (n : String) : List Action :=
  if n = "ls_icosahedron" then
    [.call .gridName, .call .gridName, .read n, .out "Found grid ", .call .gridName,
      .out n, .endl]
  else
    [.call .gridName, .out "skipping grid ", .call .gridName, .out n, .endl]

/-- Actions of the `for` loop over the entries not yet visited. -/
def loopActions : List String → List Action
  | [] => [.call .endName]
  | n :: rest => .call .endName :: (bodyActions n ++ .call .increment :: loopActions rest)

/-- Actions of the whole `try` block for a file with the given directory. -/
def tryActions (filename : String) (names : List String) : List Action :=
  .call .initializeLib :: .call (.fileCtor filename) :: .call .openFile :: .call .beginName ::
    (loopActions names ++ [.call .close])

/-- The library call made by an action, if any. -/
def Action.callOf : Action → Option Call
  | .call c => some c
  | .read name => some (.readGrid name)
  | .out _ => none
  | .endl => none

/-- The library calls of a list of actions, in order. -/
def callsOf (as : List Action) : List Call :=
  as.filterMap Action.callOf

/-- The events of calls that all returned. -/
def quiet (cs : List Call) : List Event :=
  cs.map fun c => ⟨c, none⟩

/-- The effect of one action on `std::cout`. -/
def Action.outOn (o : OStream) : Action → OStream
  | .out s => o.write s
  | .endl => o.endl
  | _ => o

/-- The effect of a list of actions on `std::cout`. -/
def outOf (as : List Action) (o : OStream) : OStream :=
  as.foldl Action.outOn o

/-- The value of `base_grid` after a list of actions that all returned. -/
def gridOf {Grid : Type} (lib : Library Grid) (filename : String) (as : List Action)
    (base_grid : Option Grid) : Option Grid :=
  as.foldl (fun bg a => match a with
    | .read name => some (lib.grid filename name)
    | _ => bg) base_grid

/-! ## The sequence of library calls of a run without failure -/

/-- Library calls of one pass through the loop body at the directory entry `n`:
`gridName()` for the comparison, then either `gridName()`, `readGrid` and
`gridName()` for the line printed, or `gridName()` for the line printed. -/
def bodyCalls (n : String) : List Call :=
  if n = "ls_icosahedron" then [.gridName, .gridName, .readGrid n, .gridName]
  else [.gridName, .gridName]

/-- Library calls of the `for` loop over the given directory entries: each pass
is `endName()` for the loop test, the body, and `++name_iter`; the loop ends with
one more `endName()`. -/
def loopCalls : List String → List Call
  | [] => [.endName]
  | n :: rest => .endName :: (bodyCalls n ++ .increment :: loopCalls rest)

/-- Library calls of a whole run with `argc == 2` in which no call raises, for a
file with the given directory. -/
def lifecycle (filename : String) (names : List String) : List Call :=
  .initializeLib :: .fileCtor filename :: .openFile :: .beginName ::
    (loopCalls names ++ [.close])

/-- Holds of the calls `file.readGrid(name)`. -/
def Call.isReadGrid : Call → Bool
  | .readGrid _ => true
  | _ => false

/-! ## Observations on a run -/

/-- Whether the text `s` begins with the text `p`. -/
def startsWith (p s : String) : Bool :=
  p.data.isPrefixOf s.data

/-- How many times the report `Found grid ` has been written to a stream: the
completed lines that begin with it, and the unfinished line if it begins
with it. -/
def foundOutputs (o : OStream) : Nat :=
  (o.lines.filter (startsWith "Found grid ")).length +
    (if startsWith "Found grid " o.pending then 1 else 0)

/-- Whether an event is a `readGrid` call that returned. -/
def Event.isReturnedRead (ev : Event) : Bool :=
  ev.call.isReadGrid && ev.raised.isNone

/-- How many `readGrid` calls of a trace returned. -/
def returnedReads (t : List Event) : Nat :=
  (t.filter Event.isReturnedRead).length

/-- Holds when, running the actions from a state with standard output `o` and `k`
returned reads, the two counts agree at every library call (the points where
the run can be cut short) and at the end. -/
def foundOk (o : OStream) (k : Nat) : List Action → Prop
  | [] => foundOutputs o = k
  | .call c :: as => foundOutputs o = k ∧ foundOk o (k + if c.isReadGrid then 1 else 0) as
  | .read _ :: as => foundOutputs o = k ∧ foundOk o (k + 1) as
  | .out s :: as => foundOk (o.write s) k as
  | .endl :: as => foundOk o.endl k as

/-! ## Concrete libraries used as test inputs -/

/-- A library in which every call returns, over a file whose directory is
`a`, `ls_icosahedron`. -/
def quietLib : Library Nat :=
  { raises := fun _ _ => none
    directory := fun _ => ["a", "ls_icosahedron"]
    grid := fun _ name => name.length }

/-- A library over a file whose only grid is `ls_icosahedron`, in which `close()`
raises and every other call returns. -/
def closeFailsLib : Library Nat :=
  { raises := fun _ c => if c = .close then some (.stdException "close failed") else none
    directory := fun _ => ["ls_icosahedron"]
    grid := fun _ name => name.length }

/-- Modelled from the spec: the reader operation `readGrid(name)`, which is
library code outside the repository and which the spec says fails with a
not-found error when `name` is not in the directory.  The file has the single
grid `a`; every other call returns. -/
def notFoundLib : Library Nat :=
  { raises := fun _ c =>
      match c with
      | .readGrid name => if name ∈ ["a"] then none else some (.stdException "not found")
      | _ => none
    directory := fun _ => ["a"]
    grid := fun _ name => name.length }

/-- A library over a file with the grids `a` and `ls_icosahedron`, in which the
payload of `a` is damaged: `readGrid("a")` raises and every other call
returns. -/
def damagedLib : Library Nat :=
  { raises := fun _ c => if c = .readGrid "a" then some (.stdException "corrupt data") else none
    directory := fun _ => ["a", "ls_icosahedron"]
    grid := fun _ name => name.length }

/-- A library over a file with the grids `a` and `ls_icosahedron`, in which the
payload of `ls_icosahedron` is damaged: `readGrid("ls_icosahedron")` raises and
every other call returns. -/
def targetDamagedLib : Library Nat :=
  { raises := fun _ c =>
      if c = .readGrid "ls_icosahedron" then some (.stdException "corrupt data") else none
    directory := fun _ => ["a", "ls_icosahedron"]
    grid := fun _ name => name.length }

/-- The run of `main` with `targetDamagedLib`. -/
def targetDamagedRun : Run :=
  (main targetDamagedLib ["example", "x.vdb"]).getD ⟨0, World.start⟩

/-- The run of `main` with `closeFailsLib`. -/
def closeFailsRun : Run :=
  (main closeFailsLib ["example", "x.vdb"]).getD ⟨0, World.start⟩

/-- The run of `main` with `quietLib`. -/
def quietRun : Run :=
  (main quietLib ["example", "x.vdb"]).getD ⟨0, World.start⟩

/-! ## Verification -/

theorem bind_eq {α β : Type} (m : Prog α) (f : α → Prog β) : (m >>= f) = Prog.bind m f :=
  rfl

theorem pure_eq {α : Type} (a : α) : (pure a : Prog α) = fun w => Outcome.ret a w :=
  rfl

theorem Prog.bind_assoc {α β γ : Type} (m : Prog α) (f : α → Prog β) (g : β → Prog γ) :
    Prog.bind (Prog.bind m f) g = Prog.bind m (fun a => Prog.bind (f a) g) := by
  funext w
  simp only [Prog.bind]
  cases m w <;> rfl

theorem Prog.ret_bind {α β : Type} (a : α) (f : α → Prog β) :
    Prog.bind (fun w => Outcome.ret a w) f = f a := by
  funext w
  rfl

theorem Prog.bind_ret {α : Type} (m : Prog α) :
    Prog.bind m (fun a w => Outcome.ret a w) = m := by
  funext w
  simp only [Prog.bind]
  cases m w <;> rfl

theorem exec_nil {Grid : Type} (lib : Library Grid) (f : String) (bg : Option Grid) :
    exec lib f [] bg = fun w => Outcome.ret bg w :=
  rfl

theorem exec_cons {Grid : Type} (lib : Library Grid) (f : String) (a : Action)
    (as : List Action) (bg : Option Grid) :
    exec lib f (a :: as) bg = Prog.bind (perform lib f a bg) (exec lib f as) :=
  rfl

theorem exec_cons_fun {Grid : Type} (lib : Library Grid) (f : String) (a : Action)
    (as : List Action) :
    exec lib f (a :: as) = fun bg => Prog.bind (perform lib f a bg) (exec lib f as) :=
  rfl

theorem exec_append {Grid : Type} (lib : Library Grid) (f : String) (as bs : List Action)
    (bg : Option Grid) :
    exec lib f (as ++ bs) bg = Prog.bind (exec lib f as bg) (exec lib f bs) := by
  induction as generalizing bg with
  | nil => simp [exec_nil, Prog.ret_bind]
  | cons a as ih =>
    simp only [List.cons_append, exec_cons, Prog.bind_assoc]
    exact congrArg _ (funext fun bg' => ih bg')

theorem libCall_bind (α : Type) {β Grid : Type} (lib : Library Grid) (c : Call) (r : α)
    (k : α → Prog β) :
    Prog.bind (libCall lib c r) k = Prog.bind (libCall lib c ()) (fun _ => k r) := by
  funext w
  simp only [Prog.bind, libCall]
  cases lib.raises w.trace c <;> rfl

theorem loopBody_eq_exec {Grid : Type} (lib : Library Grid) (f n : String)
    (bg : Option Grid) : loopBody lib f n bg = exec lib f (bodyActions n) bg := by
  unfold loopBody bodyActions
  split <;>
    simp only [exec_cons, exec_nil, perform, bind_eq, pure_eq, Prog.bind_assoc, Prog.ret_bind,
      libCall_bind String, libCall_bind Grid, if_true, if_false, *]

theorem nameLoop_eq_exec {Grid : Type} (lib : Library Grid) (f : String)
    (names : List String) (bg : Option Grid) :
    nameLoop lib f names bg = exec lib f (loopActions names) bg := by
  induction names generalizing bg with
  | nil =>
    simp only [nameLoop, loopActions, exec_cons, exec_nil, perform, bind_eq, pure_eq,
      Prog.bind_assoc, Prog.ret_bind]
  | cons n rest ih =>
    simp only [nameLoop, loopActions, exec_cons, exec_cons_fun, exec_append, exec_nil, perform,
      bind_eq, pure_eq, Prog.bind_assoc, Prog.ret_bind, loopBody_eq_exec, ih]

theorem tryBlock_eq_exec {Grid : Type} (lib : Library Grid) (f : String) :
    tryBlock lib f = exec lib f (tryActions f (lib.directory f)) none := by
  simp only [tryBlock, scanDirectory, tryActions, exec_cons, exec_cons_fun, exec_append,
    exec_nil, perform, bind_eq, pure_eq, Prog.bind_assoc, Prog.ret_bind, nameLoop_eq_exec,
    libCall_bind (List String)]

theorem exec_call {Grid : Type} (lib : Library Grid) (f : String) (c : Call)
    (as : List Action) (bg : Option Grid) (w : World) :
    exec lib f (.call c :: as) bg w =
      match lib.raises w.trace c with
      | none => exec lib f as bg (w.record c none)
      | some e => .thrown e (w.record c (some e)) := by
  simp only [exec_cons, perform, bind_eq, pure_eq, Prog.bind, libCall]
  cases lib.raises w.trace c <;> rfl

theorem exec_read {Grid : Type} (lib : Library Grid) (f : String) (n : String)
    (as : List Action) (bg : Option Grid) (w : World) :
    exec lib f (.read n :: as) bg w =
      match lib.raises w.trace (.readGrid n) with
      | none => exec lib f as (some (lib.grid f n)) (w.record (.readGrid n) none)
      | some e => .thrown e (w.record (.readGrid n) (some e)) := by
  simp only [exec_cons, perform, bind_eq, pure_eq, Prog.bind, libCall]
  cases lib.raises w.trace (.readGrid n) <;> rfl

theorem exec_out {Grid : Type} (lib : Library Grid) (f : String) (s : String)
    (as : List Action) (bg : Option Grid) (w : World) :
    exec lib f (.out s :: as) bg w = exec lib f as bg { w with cout := w.cout.write s } :=
  rfl

theorem exec_endl {Grid : Type} (lib : Library Grid) (f : String)
    (as : List Action) (bg : Option Grid) (w : World) :
    exec lib f (.endl :: as) bg w = exec lib f as bg { w with cout := w.cout.endl } :=
  rfl

theorem main_two {Grid : Type} (lib : Library Grid) (prog f : String) :
    main lib [prog, f] =
      match exec lib f (tryActions f (lib.directory f)) none World.start with
      | .ret _ w => some { code := 0, world := w }
      | .thrown e w => some (handler e w) := by
  simp [main, tryBlock_eq_exec]

theorem callsOf_nil : callsOf [] = [] :=
  rfl

theorem callsOf_call (c : Call) (as : List Action) :
    callsOf (.call c :: as) = c :: callsOf as :=
  rfl

theorem callsOf_read (n : String) (as : List Action) :
    callsOf (.read n :: as) = .readGrid n :: callsOf as :=
  rfl

theorem callsOf_out (s : String) (as : List Action) : callsOf (.out s :: as) = callsOf as :=
  rfl

theorem callsOf_endl (as : List Action) : callsOf (.endl :: as) = callsOf as :=
  rfl

theorem callsOf_append (as bs : List Action) : callsOf (as ++ bs) = callsOf as ++ callsOf bs := by
  simp [callsOf, List.filterMap_append]

theorem quiet_nil : quiet [] = [] :=
  rfl

theorem quiet_cons (c : Call) (cs : List Call) : quiet (c :: cs) = ⟨c, none⟩ :: quiet cs :=
  rfl

theorem quiet_append (cs ds : List Call) : quiet (cs ++ ds) = quiet cs ++ quiet ds := by
  simp [quiet]

theorem quiet_raised {cs : List Call} {ev : Event} (h : ev ∈ quiet cs) : ev.raised = none := by
  simp only [quiet, List.mem_map] at h
  obtain ⟨c, -, rfl⟩ := h
  rfl

theorem quiet_calls (cs : List Call) : (quiet cs).map Event.call = cs := by
  induction cs with
  | nil => rfl
  | cons c cs ih => simp [quiet_cons, ih]

theorem outOf_nil (o : OStream) : outOf [] o = o :=
  rfl

theorem outOf_cons (a : Action) (as : List Action) (o : OStream) :
    outOf (a :: as) o = outOf as (a.outOn o) :=
  rfl

theorem outOf_append (as bs : List Action) (o : OStream) :
    outOf (as ++ bs) o = outOf bs (outOf as o) := by
  simp [outOf, List.foldl_append]

theorem exec_ret {Grid : Type} (lib : Library Grid) (f : String) (as : List Action) :
    ∀ (bg : Option Grid) (w : World) (g : Option Grid) (w' : World),
      exec lib f as bg w = .ret g w' →
      w' = ⟨w.trace ++ quiet (callsOf as), outOf as w.cout, w.cerr⟩ ∧
        g = gridOf lib f as bg := by
  induction as with
  | nil =>
    intro bg w g w' h
    simp only [exec_nil, Outcome.ret.injEq] at h
    obtain ⟨rfl, rfl⟩ := h
    simp [callsOf_nil, quiet_nil, outOf_nil, gridOf]
  | cons a as ih =>
    intro bg w g w' h
    cases a with
    | call c =>
      rw [exec_call] at h
      cases hc : lib.raises w.trace c with
      | some e => simp [hc] at h
      | none =>
        simp only [hc] at h
        obtain ⟨h1, h2⟩ := ih _ _ _ _ h
        refine ⟨?_, ?_⟩
        · rw [h1]
          simp [World.record, callsOf_call, quiet_cons, outOf_cons, Action.outOn]
        · rw [h2]
          simp [gridOf]
    | read n =>
      rw [exec_read] at h
      cases hc : lib.raises w.trace (.readGrid n) with
      | some e => simp [hc] at h
      | none =>
        simp only [hc] at h
        obtain ⟨h1, h2⟩ := ih _ _ _ _ h
        refine ⟨?_, ?_⟩
        · rw [h1]
          simp [World.record, callsOf_read, quiet_cons, outOf_cons, Action.outOn]
        · rw [h2]
          simp [gridOf]
    | out s =>
      rw [exec_out] at h
      obtain ⟨h1, h2⟩ := ih _ _ _ _ h
      refine ⟨?_, ?_⟩
      · rw [h1]
        simp [callsOf_out, outOf_cons, Action.outOn]
      · rw [h2]
        simp [gridOf]
    | endl =>
      rw [exec_endl] at h
      obtain ⟨h1, h2⟩ := ih _ _ _ _ h
      refine ⟨?_, ?_⟩
      · rw [h1]
        simp [callsOf_endl, outOf_cons, Action.outOn]
      · rw [h2]
        simp [gridOf]

theorem exec_thrown {Grid : Type} (lib : Library Grid) (f : String) (as : List Action) :
    ∀ (bg : Option Grid) (w : World) (e : Thrown) (w' : World),
      exec lib f as bg w = .thrown e w' →
      ∃ pre a post c, as = pre ++ a :: post ∧ a.callOf = some c ∧
        lib.raises (w.trace ++ quiet (callsOf pre)) c = some e ∧
        w' = ⟨w.trace ++ quiet (callsOf pre) ++ [⟨c, some e⟩], outOf pre w.cout, w.cerr⟩ := by
  induction as with
  | nil =>
    intro bg w e w' h
    simp [exec_nil] at h
  | cons a as ih =>
    intro bg w e w' h
    cases a with
    | call c =>
      rw [exec_call] at h
      cases hc : lib.raises w.trace c with
      | some e' =>
        simp only [hc, Outcome.thrown.injEq] at h
        obtain ⟨rfl, rfl⟩ := h
        exact ⟨[], .call c, as, c, rfl, rfl, by simpa [callsOf_nil, quiet_nil] using hc,
          by simp [World.record, callsOf_nil, quiet_nil, outOf_nil]⟩
      | none =>
        simp only [hc] at h
        obtain ⟨pre, a, post, c', h1, h2, h3, h4⟩ := ih _ _ _ _ h
        refine ⟨.call c :: pre, a, post, c', by simp [h1], h2, ?_, ?_⟩
        · simpa [World.record, callsOf_call, quiet_cons] using h3
        · rw [h4]
          simp [World.record, callsOf_call, quiet_cons, outOf_cons, Action.outOn]
    | read n =>
      rw [exec_read] at h
      cases hc : lib.raises w.trace (.readGrid n) with
      | some e' =>
        simp only [hc, Outcome.thrown.injEq] at h
        obtain ⟨rfl, rfl⟩ := h
        exact ⟨[], .read n, as, .readGrid n, rfl, rfl,
          by simpa [callsOf_nil, quiet_nil] using hc,
          by simp [World.record, callsOf_nil, quiet_nil, outOf_nil]⟩
      | none =>
        simp only [hc] at h
        obtain ⟨pre, a, post, c', h1, h2, h3, h4⟩ := ih _ _ _ _ h
        refine ⟨.read n :: pre, a, post, c', by simp [h1], h2, ?_, ?_⟩
        · simpa [World.record, callsOf_read, quiet_cons] using h3
        · rw [h4]
          simp [World.record, callsOf_read, quiet_cons, outOf_cons, Action.outOn]
    | out s =>
      rw [exec_out] at h
      obtain ⟨pre, a, post, c', h1, h2, h3, h4⟩ := ih _ _ _ _ h
      refine ⟨.out s :: pre, a, post, c', by simp [h1], h2, ?_, ?_⟩
      · simpa [callsOf_out] using h3
      · rw [h4]
        simp [callsOf_out, outOf_cons, Action.outOn]
    | endl =>
      rw [exec_endl] at h
      obtain ⟨pre, a, post, c', h1, h2, h3, h4⟩ := ih _ _ _ _ h
      refine ⟨.endl :: pre, a, post, c', by simp [h1], h2, ?_, ?_⟩
      · simpa [callsOf_endl] using h3
      · rw [h4]
        simp [callsOf_endl, outOf_cons, Action.outOn]

theorem length_two {argv : List String} (h : argv.length = 2) :
    ∃ prog f, argv = [prog, f] := by
  match argv, h with
  | [prog, f], _ => exact ⟨prog, f, rfl⟩

/-- A run with `argc = 2` either performs all actions of the `try` block and
returns 0, or stops at the first call that raises and goes through a handler. -/
theorem main_two_cases {Grid : Type} (lib : Library Grid) (prog f : String) :
    (exec lib f (tryActions f (lib.directory f)) none World.start =
        .ret (gridOf lib f (tryActions f (lib.directory f)) none)
          ⟨quiet (callsOf (tryActions f (lib.directory f))),
            outOf (tryActions f (lib.directory f)) OStream.empty, OStream.empty⟩ ∧
      main lib [prog, f] =
        some ⟨0, ⟨quiet (callsOf (tryActions f (lib.directory f))),
          outOf (tryActions f (lib.directory f)) OStream.empty, OStream.empty⟩⟩) ∨
    (∃ pre a post c e, tryActions f (lib.directory f) = pre ++ a :: post ∧
      a.callOf = some c ∧ lib.raises (quiet (callsOf pre)) c = some e ∧
      main lib [prog, f] =
        some (handler e ⟨quiet (callsOf pre) ++ [⟨c, some e⟩], outOf pre OStream.empty,
          OStream.empty⟩)) := by
  rw [main_two]
  cases h : exec lib f (tryActions f (lib.directory f)) none World.start with
  | ret g w =>
    left
    obtain ⟨h1, h2⟩ := exec_ret lib f _ _ _ _ _ h
    subst h1 h2
    simp [World.start]
  | thrown e w =>
    right
    obtain ⟨pre, a, post, c, h1, h2, h3, h4⟩ := exec_thrown lib f _ _ _ _ _ h
    refine ⟨pre, a, post, c, e, h1, h2, by simpa [World.start] using h3, ?_⟩
    subst h4
    simp [World.start]

theorem handler_code (e : Thrown) (w : World) : (handler e w).code = -1 := by
  cases e <;> rfl

theorem handler_trace (e : Thrown) (w : World) : (handler e w).world.trace = w.trace := by
  cases e <;> rfl

theorem handler_cout (e : Thrown) (w : World) : (handler e w).world.cout = w.cout := by
  cases e <;> rfl

/-! ### C1: the usage branch -/

/-- The usage branch: a run with `argc != 2` returns 1 without a library call and
without output on `std::cout`. -/
theorem main_usage_branch {Grid : Type} (lib : Library Grid) (argv : List String)
    (h2 : argv.length ≠ 2) (r : Run) (hr : main lib argv = some r) :
    r.code = 1 ∧ r.world.trace = [] ∧ r.world.cout = OStream.empty := by
  simp only [main, h2, ne_eq, not_false_eq_true, if_true] at hr
  split at hr <;>
    · simp only [Option.some.injEq] at hr
      subst hr
      exact ⟨rfl, rfl, rfl⟩

/-- The run with an empty argument vector: `main` returns 1, and standard error
holds `USAGE: ` without the end of the line. -/
theorem main_without_argv {Grid : Type} (lib : Library Grid) :
    main lib [] = some ⟨1, { World.start with cerr := ⟨[], "USAGE: "⟩ }⟩ :=
  rfl

/-- C2: the value returned by `main` is always one of 0, 1, -1; and for every run
with `argc == 2`, `main` returns (no exception leaves it), the value is 0 if
and only if none of the library calls it made raised, and it is -1
otherwise. -/
theorem main_exit_code {Grid : Type} (lib : Library Grid) (argv : List String) :
    (∀ r, main lib argv = some r → r.code = 0 ∨ r.code = 1 ∨ r.code = -1) ∧
    (argv.length = 2 →
      ∃ r, main lib argv = some r ∧
        (r.code = 0 ↔ ∀ ev ∈ r.world.trace, ev.raised = none) ∧
        (r.code ≠ 0 → r.code = -1)) := by
  have key : argv.length = 2 →
      ∃ r, main lib argv = some r ∧
        (r.code = 0 ↔ ∀ ev ∈ r.world.trace, ev.raised = none) ∧
        (r.code ≠ 0 → r.code = -1) := by
    intro h2
    obtain ⟨prog, f, rfl⟩ := length_two h2
    rcases main_two_cases lib prog f with ⟨-, h⟩ | ⟨pre, a, post, c, e, -, -, -, h⟩
    · refine ⟨_, h, ?_, by simp⟩
      simp only [true_iff]
      intro ev hev
      exact quiet_raised hev
    · refine ⟨_, h, ?_, fun _ => handler_code _ _⟩
      simp only [handler_code, handler_trace]
      constructor
      · intro h0
        exact absurd h0 (by decide)
      · intro hall
        have := hall ⟨c, some e⟩ (by simp)
        simp at this
  refine ⟨?_, key⟩
  intro r hr
  by_cases h2 : argv.length = 2
  · obtain ⟨r', hr', -, h1⟩ := key h2
    rw [hr] at hr'
    cases hr'
    by_cases h0 : r.code = 0
    · exact Or.inl h0
    · exact Or.inr (Or.inr (h1 h0))
  · exact Or.inr (Or.inl (main_usage_branch lib argv h2 r hr).1)

theorem main_exit_code_witness :
    ["example", "x.vdb"].length = 2 ∧
    ∃ r, main quietLib ["example", "x.vdb"] = some r ∧
      (r.code = 0 ↔ ∀ ev ∈ r.world.trace, ev.raised = none) ∧
      (r.code ≠ 0 → r.code = -1) :=
  ⟨by decide, (main_exit_code quietLib ["example", "x.vdb"]).2 (by decide)⟩

/-! ### C3: the report of a failure -/

/-- C3: for every run with `argc == 2` in which a library call raises the value
`e`, `main` returns -1 and standard error holds exactly one line: `EXCEPTION: `
followed by the `what()` text when `e` is a `std::exception`, and
`UNKNOWN EXCEPTION` otherwise.  The value -1 differs from 0, and its low 8 bits
are 255, which differs from 0 and from 1. -/
theorem main_exception_report {Grid : Type} (lib : Library Grid) (argv : List String)
    (hargc : argv.length = 2) (r : Run) (hr : main lib argv = some r)
    (ev : Event) (hev : ev ∈ r.world.trace) (e : Thrown) (he : ev.raised = some e) :
    r.code = -1 ∧
    (∀ what, e = .stdException what → r.world.cerr = ⟨["EXCEPTION: " ++ what], ""⟩) ∧
    (e = .other → r.world.cerr = ⟨["UNKNOWN EXCEPTION"], ""⟩) ∧
    r.code ≠ 0 ∧ exitStatus r.code = 255 ∧ exitStatus r.code ≠ 0 ∧ exitStatus r.code ≠ 1 := by
  obtain ⟨prog, f, rfl⟩ := length_two hargc
  rcases main_two_cases lib prog f with ⟨-, h⟩ | ⟨pre, a, post, c, e', -, -, -, h⟩
  · rw [hr] at h
    cases h
    have := quiet_raised hev
    rw [he] at this
    cases this
  · rw [hr] at h
    cases h
    rw [handler_trace] at hev
    have hee : e = e' := by
      simp only [List.mem_append, List.mem_singleton] at hev
      rcases hev with hq | rfl
      · have := quiet_raised hq
        rw [he] at this
        cases this
      · simpa using he.symm
    subst hee
    refine ⟨handler_code _ _, ?_, ?_, ?_, ?_, ?_, ?_⟩
    · rintro what rfl
      simp [handler, OStream.write, OStream.endl, OStream.empty]
    · rintro rfl
      simp [handler, OStream.write, OStream.endl, OStream.empty]
    all_goals simp [handler_code, exitStatus]

theorem main_exception_report_witness :
    closeFailsRun.code = -1 ∧
    closeFailsRun.world.cerr = ⟨["EXCEPTION: " ++ "close failed"], ""⟩ :=
  have h := main_exception_report closeFailsLib ["example", "x.vdb"] (by decide)
    closeFailsRun (by decide) ⟨.close, some (.stdException "close failed")⟩ (by decide)
    (.stdException "close failed") rfl
  ⟨h.1, h.2.1 "close failed" rfl⟩

/-! ### C4: standard output of a run without failure -/

theorem outOf_bodyActions (n : String) (ls : List String) :
    outOf (bodyActions n) ⟨ls, ""⟩ =
      ⟨ls ++ [if n = "ls_icosahedron" then "Found grid " ++ n else "skipping grid " ++ n],
        ""⟩ := by
  unfold bodyActions
  split <;> simp [outOf_cons, outOf_nil, Action.outOn, OStream.write, OStream.endl]

theorem outOf_loopActions (names : List String) (ls : List String) :
    outOf (loopActions names) ⟨ls, ""⟩ =
      ⟨ls ++ names.map (fun n =>
        if n = "ls_icosahedron" then "Found grid " ++ n else "skipping grid " ++ n), ""⟩ := by
  induction names generalizing ls with
  | nil => simp [loopActions, outOf_cons, outOf_nil, Action.outOn]
  | cons n rest ih =>
    simp only [loopActions, outOf_cons, outOf_append, Action.outOn, outOf_bodyActions, ih,
      List.map_cons, List.append_assoc, List.singleton_append]

theorem outOf_tryActions (f : String) (names : List String) :
    outOf (tryActions f names) OStream.empty =
      ⟨names.map (fun n =>
        if n = "ls_icosahedron" then "Found grid " ++ n else "skipping grid " ++ n), ""⟩ := by
  simp [tryActions, outOf_cons, outOf_append, outOf_nil, Action.outOn, OStream.empty,
    outOf_loopActions]

/-- A run in which no call raised performed the whole `try` block. -/
theorem main_of_no_raise {Grid : Type} (lib : Library Grid) (prog f : String) (r : Run)
    (hr : main lib [prog, f] = some r) (hok : ∀ ev ∈ r.world.trace, ev.raised = none) :
    r = ⟨0, ⟨quiet (callsOf (tryActions f (lib.directory f))),
      outOf (tryActions f (lib.directory f)) OStream.empty, OStream.empty⟩⟩ ∧
    exec lib f (tryActions f (lib.directory f)) none World.start =
      .ret (gridOf lib f (tryActions f (lib.directory f)) none) r.world := by
  rcases main_two_cases lib prog f with ⟨hx, h⟩ | ⟨pre, a, post, c, e, -, -, -, h⟩
  · rw [hr] at h
    cases h
    exact ⟨rfl, hx⟩
  · rw [hr] at h
    cases h
    have := hok ⟨c, some e⟩ (by simp [handler_trace])
    simp at this

/-- C4: for every archive whose directory is the name sequence `n_1..n_k` and for
which no library call fails, standard output is exactly `k` lines, the `i`-th
being `Found grid n_i` when `n_i` is `ls_icosahedron` and `skipping grid n_i`
otherwise, in directory order; the exit code is 0, and an empty directory
yields empty output. -/
theorem main_output {Grid : Type} (lib : Library Grid) (prog filename : String) (r : Run)
    (hr : main lib [prog, filename] = some r)
    (hok : ∀ ev ∈ r.world.trace, ev.raised = none) :
    r.world.cout =
      ⟨(lib.directory filename).map (fun n =>
        if n = "ls_icosahedron" then "Found grid " ++ n else "skipping grid " ++ n), ""⟩ ∧
    r.world.cout.lines.length = (lib.directory filename).length ∧
    r.code = 0 ∧
    (lib.directory filename = [] → r.world.cout = OStream.empty) := by
  obtain ⟨rfl, -⟩ := main_of_no_raise lib prog filename r hr hok
  simp only [outOf_tryActions, List.length_map, true_and]
  intro h
  simp [h, OStream.empty]

theorem main_output_witness :
    quietRun.world.cout = ⟨["skipping grid a", "Found grid ls_icosahedron"], ""⟩ ∧
    quietRun.code = 0 :=
  have h := main_output quietLib "example" "x.vdb" quietRun (by decide) (by decide)
  ⟨h.1, h.2.2.1⟩

/-! ### The library calls of a run -/

theorem callsOf_bodyActions (n : String) : callsOf (bodyActions n) = bodyCalls n := by
  unfold bodyActions bodyCalls
  split <;> rfl

theorem callsOf_loopActions (names : List String) :
    callsOf (loopActions names) = loopCalls names := by
  induction names with
  | nil => rfl
  | cons n rest ih =>
    simp [loopActions, loopCalls, callsOf_call, callsOf_append, callsOf_bodyActions, ih]

theorem callsOf_tryActions (f : String) (names : List String) :
    callsOf (tryActions f names) = lifecycle f names := by
  simp [tryActions, lifecycle, callsOf_call, callsOf_append, callsOf_loopActions, callsOf_nil]

theorem callsOf_split {pre post : List Action} {a : Action} {c : Call}
    (h : a.callOf = some c) :
    callsOf (pre ++ a :: post) = callsOf pre ++ c :: callsOf post := by
  simp [callsOf, List.filterMap_append, List.filterMap_cons, h]

/-- The trace of a run with `argc == 2`: all calls of `lifecycle` returned and the
exit code is 0, or the calls up to some call of `lifecycle` returned, that call
raised, nothing was called after it, and the exit code is -1. -/
theorem main_trace {Grid : Type} (lib : Library Grid) (prog f : String) (r : Run)
    (hr : main lib [prog, f] = some r) :
    (r.code = 0 ∧ r.world.trace = quiet (lifecycle f (lib.directory f))) ∨
    (∃ pre c post e, lifecycle f (lib.directory f) = pre ++ c :: post ∧ r.code = -1 ∧
      r.world.trace = quiet pre ++ [⟨c, some e⟩]) := by
  rcases main_two_cases lib prog f with ⟨-, h⟩ | ⟨pre, a, post, c, e, h1, h2, -, h⟩
  · rw [hr] at h
    cases h
    exact Or.inl ⟨rfl, by rw [callsOf_tryActions]⟩
  · rw [hr] at h
    cases h
    refine Or.inr ⟨callsOf pre, c, callsOf post, e, ?_, handler_code _ _, ?_⟩
    · rw [← callsOf_tryActions, h1, callsOf_split h2]
    · rw [handler_trace]

theorem main_calls_initial {Grid : Type} (lib : Library Grid) (prog f : String) (r : Run)
    (hr : main lib [prog, f] = some r) :
    r.world.calls <+: lifecycle f (lib.directory f) := by
  rcases main_trace lib prog f r hr with ⟨-, h⟩ | ⟨pre, c, post, e, h1, -, h⟩
  · simp [World.calls, h, quiet_calls]
  · rw [h1]
    simp only [World.calls, h, List.map_append, quiet_calls, List.map_cons, List.map_nil]
    exact ⟨post, by simp⟩

/-! ### C5: selective read -/

theorem mem_bodyCalls_readGrid {n m : String} (h : Call.readGrid m ∈ bodyCalls n) :
    m = "ls_icosahedron" := by
  unfold bodyCalls at h
  split at h
  · simp at h
    subst h
    assumption
  · simp at h

theorem mem_loopCalls_readGrid {names : List String} {m : String}
    (h : Call.readGrid m ∈ loopCalls names) : m = "ls_icosahedron" := by
  induction names with
  | nil => simp [loopCalls] at h
  | cons n rest ih =>
    simp only [loopCalls, List.mem_cons, List.mem_append] at h
    rcases h with h | h | h | h
    · cases h
    · exact mem_bodyCalls_readGrid h
    · cases h
    · exact ih h

theorem mem_lifecycle_readGrid {f : String} {names : List String} {m : String}
    (h : Call.readGrid m ∈ lifecycle f names) : m = "ls_icosahedron" := by
  simp [lifecycle] at h
  exact mem_loopCalls_readGrid h

theorem reads_bodyCalls (n : String) :
    ((bodyCalls n).filter Call.isReadGrid).length = if n = "ls_icosahedron" then 1 else 0 := by
  unfold bodyCalls
  split <;> simp [Call.isReadGrid]

theorem reads_loopCalls (names : List String) :
    ((loopCalls names).filter Call.isReadGrid).length = names.count "ls_icosahedron" := by
  induction names with
  | nil => simp [loopCalls, Call.isReadGrid]
  | cons n rest ih =>
    have hsplit : loopCalls (n :: rest) =
        [.endName] ++ (bodyCalls n ++ ([.increment] ++ loopCalls rest)) := rfl
    rw [hsplit]
    simp only [List.filter_append, List.length_append, reads_bodyCalls, ih, List.count_cons]
    by_cases h : n = "ls_icosahedron"
    · simp [h, Call.isReadGrid]
      omega
    · simp [h, Call.isReadGrid]

theorem reads_lifecycle (f : String) (names : List String) :
    ((lifecycle f names).filter Call.isReadGrid).length = names.count "ls_icosahedron" := by
  simp [lifecycle, List.filter_cons, List.filter_append, Call.isReadGrid, reads_loopCalls]

/-- C5: on every run, `readGrid` is called only with the name `ls_icosahedron`; and
on a run with `argc == 2` in which no call raises, the number of `readGrid`
calls is the number of directory entries named `ls_icosahedron`, hence at most
one when the names of the directory are pairwise distinct. -/
theorem main_selective_read {Grid : Type} (lib : Library Grid) (argv : List String)
    (r : Run) (hr : main lib argv = some r) :
    (∀ n, Call.readGrid n ∈ r.world.calls → n = "ls_icosahedron") ∧
    (∀ prog filename, argv = [prog, filename] →
      (∀ ev ∈ r.world.trace, ev.raised = none) →
      (r.world.calls.filter Call.isReadGrid).length =
          (lib.directory filename).count "ls_icosahedron" ∧
        ((lib.directory filename).Nodup →
          (r.world.calls.filter Call.isReadGrid).length ≤ 1)) := by
  refine ⟨?_, ?_⟩
  · intro n hn
    by_cases h2 : argv.length = 2
    · obtain ⟨prog, f, rfl⟩ := length_two h2
      exact mem_lifecycle_readGrid ((main_calls_initial lib prog f r hr).subset hn)
    · obtain ⟨-, ht, -⟩ := main_usage_branch lib argv h2 r hr
      simp [World.calls, ht] at hn
  · rintro prog filename rfl hok
    have hcalls : r.world.calls = lifecycle filename (lib.directory filename) := by
      obtain ⟨rfl, -⟩ := main_of_no_raise lib prog filename r hr hok
      simp [World.calls, quiet_calls, callsOf_tryActions]
    rw [hcalls, reads_lifecycle]
    exact ⟨rfl, fun hnd => List.nodup_iff_count_le_one.mp hnd _⟩

theorem main_selective_read_witness :
    (∀ n, Call.readGrid n ∈ quietRun.world.calls → n = "ls_icosahedron") ∧
    (quietRun.world.calls.filter Call.isReadGrid).length = 1 :=
  have h := main_selective_read quietLib ["example", "x.vdb"] quietRun (by decide)
  ⟨h.1, (h.2 "example" "x.vdb" rfl (by decide)).1⟩

/-! ### C9: the lifecycle of the reader -/

theorem split_concat {α : Type} {pre post M : List α} {c z : α}
    (h : pre ++ c :: post = M ++ [z]) :
    (post = [] ∧ pre = M ∧ c = z) ∨ ∃ post', post = post' ++ [z] ∧ M = pre ++ c :: post' := by
  rcases List.eq_nil_or_concat post with rfl | ⟨post', l, rfl⟩
  · have h' : pre ++ [c] = M ++ [z] := h
    obtain ⟨h1, h2⟩ := List.append_inj' h' rfl
    exact Or.inl ⟨rfl, h1, by simpa using h2⟩
  · have h' : (pre ++ c :: post') ++ [l] = M ++ [z] := by simpa using h
    obtain ⟨h1, h2⟩ := List.append_inj' h' rfl
    have hl : l = z := by simpa using h2
    exact Or.inr ⟨post', by simp [hl], h1.symm⟩

theorem close_not_mem_bodyCalls (n : String) : Call.close ∉ bodyCalls n := by
  unfold bodyCalls
  split <;> simp

theorem close_not_mem_loopCalls (names : List String) : Call.close ∉ loopCalls names := by
  induction names with
  | nil => simp [loopCalls]
  | cons n rest ih => simp [loopCalls, close_not_mem_bodyCalls, ih]

theorem initializeLib_not_mem_bodyCalls (n : String) : Call.initializeLib ∉ bodyCalls n := by
  unfold bodyCalls
  split <;> simp

theorem initializeLib_not_mem_loopCalls (names : List String) :
    Call.initializeLib ∉ loopCalls names := by
  induction names with
  | nil => simp [loopCalls]
  | cons n rest ih => simp [loopCalls, initializeLib_not_mem_bodyCalls, ih]

/-- The calls of a run without failure, with the final `close()` set apart. -/
theorem lifecycle_eq_concat (f : String) (names : List String) :
    lifecycle f names =
      (.initializeLib :: .fileCtor f :: .openFile :: .beginName :: loopCalls names) ++
        [.close] :=
  rfl

theorem close_not_mem_lifecycle_init (f : String) (names : List String) :
    Call.close ∉
      (Call.initializeLib :: .fileCtor f :: .openFile :: .beginName :: loopCalls names) := by
  simp [close_not_mem_loopCalls]

theorem count_close_lifecycle (f : String) (names : List String) :
    (lifecycle f names).count .close = 1 := by
  rw [lifecycle_eq_concat, List.count_append,
    List.count_eq_zero_of_not_mem (close_not_mem_lifecycle_init f names)]
  simp

/-- The trace of a run with `argc == 2` is made of calls of `lifecycle` that all
returned, followed by one last call; when that one returned too, it is the
last call of `lifecycle`. -/
theorem main_trace_split {Grid : Type} (lib : Library Grid) (prog f : String) (r : Run)
    (hr : main lib [prog, f] = some r) :
    ∃ pre c post o, lifecycle f (lib.directory f) = pre ++ c :: post ∧
      r.world.trace = quiet pre ++ [⟨c, o⟩] ∧ (o = none → post = []) := by
  rcases main_trace lib prog f r hr with ⟨-, h⟩ | ⟨pre, c, post, e, h1, -, h⟩
  · refine ⟨_, .close, [], none, lifecycle_eq_concat f _, ?_, fun _ => rfl⟩
    rw [h, lifecycle_eq_concat, quiet_append]
    rfl
  · exact ⟨pre, c, post, some e, h1, h, fun h => by cases h⟩

theorem trace_calls {pre : List Call} {c : Call} {o : Option Thrown} :
    (quiet pre ++ [(⟨c, o⟩ : Event)]).map Event.call = pre ++ [c] := by
  simp [quiet_calls]

theorem initial_of_concat {α : Type} {A B C : List α} {x : α}
    (h : A ++ [x] <+: B ++ C) (hx : x ∉ B) : B <+: A := by
  rcases List.prefix_or_prefix_of_prefix h (List.prefix_append B C) with h1 | h1
  · exact absurd (h1.subset (by simp)) hx
  · rcases List.prefix_concat_iff.mp h1 with h2 | h2
    · exact absurd (by rw [h2]; simp) hx
    · exact h2

theorem before_last_quiet {pre : List Call} {x ev : Event} {pre1 post1 : List Event}
    (h : quiet pre ++ [x] = pre1 ++ ev :: post1) :
    (post1 = [] ∧ pre1 = quiet pre ∧ ev = x) ∨
      ∃ post', post1 = post' ++ [x] ∧ quiet pre = pre1 ++ ev :: post' :=
  split_concat h.symm

/-- C9: on every run with `argc == 2` the library calls made are an initial
segment of the sequence `initialize`, `File` constructor, `open`, `beginName`,
the name-iteration steps and `readGrid` calls of the loop, `close`;
`initialize` is the first call and is called exactly once; a `readGrid` call is
made only after `open` has returned; nothing is called after `close`, which is
called at most once; and when no call before `close` raises, the whole
sequence is made, with `close` called exactly once, as the last call. -/
theorem main_lifecycle {Grid : Type} (lib : Library Grid) (prog filename : String)
    (r : Run) (hr : main lib [prog, filename] = some r) :
    r.world.calls <+: lifecycle filename (lib.directory filename) ∧
    r.world.calls.head? = some .initializeLib ∧
    r.world.calls.count .initializeLib = 1 ∧
    (∀ pre ev post, r.world.trace = pre ++ ev :: post → ev.call.isReadGrid = true →
      ⟨.openFile, none⟩ ∈ pre) ∧
    (∀ pre ev post, r.world.trace = pre ++ ev :: post → ev.call = .close → post = []) ∧
    r.world.calls.count .close ≤ 1 ∧
    ((∀ ev ∈ r.world.trace, ev.call ≠ .close → ev.raised = none) →
      r.world.calls = lifecycle filename (lib.directory filename) ∧
      r.world.calls.count .close = 1 ∧
      r.world.calls.getLast? = some .close) := by
  have hpre := main_calls_initial lib prog filename r hr
  obtain ⟨pre, c, post, o, hL, ht, ho⟩ := main_trace_split lib prog filename r hr
  have hcalls : r.world.calls = pre ++ [c] := by
    simp only [World.calls, ht]
    exact trace_calls
  have hclose := close_not_mem_lifecycle_init filename (lib.directory filename)
  refine ⟨hpre, ?_, ?_, ?_, ?_, ?_, ?_⟩
  · rw [hcalls]
    cases pre with
    | nil =>
      simp only [lifecycle, List.nil_append, List.cons.injEq] at hL
      simp [← hL.1]
    | cons p pre' =>
      simp only [lifecycle, List.cons_append, List.cons.injEq] at hL
      simp [← hL.1]
  · rw [hcalls]
    cases pre with
    | nil =>
      simp only [lifecycle, List.nil_append, List.cons.injEq] at hL
      simp [← hL.1]
    | cons p pre' =>
      simp only [lifecycle, List.cons_append, List.cons.injEq] at hL
      obtain ⟨rfl, hL'⟩ := hL
      have hsub : pre' ++ [c] ⊆
          Call.fileCtor filename :: .openFile :: .beginName ::
            (loopCalls (lib.directory filename) ++ [.close]) := by
        rw [hL']
        intro x hx
        rw [List.mem_append, List.mem_singleton] at hx
        rw [List.mem_append, List.mem_cons]
        rcases hx with hx | hx
        · exact Or.inl hx
        · exact Or.inr (Or.inl hx)
      have hnot : Call.initializeLib ∉ pre' ++ [c] := by
        intro hmem
        have := hsub hmem
        simp [initializeLib_not_mem_loopCalls] at this
      rw [List.cons_append, List.count_cons_self, List.count_eq_zero_of_not_mem hnot]
  · intro pre1 ev post1 h hread
    rw [ht] at h
    have hq : ∀ ev' ∈ pre1, ev'.raised = none := by
      intro ev' hev'
      rcases before_last_quiet h with ⟨-, h1, -⟩ | ⟨post', -, h1⟩
      · exact quiet_raised (h1 ▸ hev')
      · have hmem : ev' ∈ quiet pre := by
          rw [h1]
          simp [hev']
        exact quiet_raised hmem
    have hc : pre1.map Event.call ++ [ev.call] <+:
        [Call.initializeLib, .fileCtor filename, .openFile] ++
          (.beginName :: (loopCalls (lib.directory filename) ++ [.close])) := by
      have h2 := congrArg (List.map Event.call) h
      rw [trace_calls] at h2
      have h3 : r.world.calls = (pre1.map Event.call ++ [ev.call]) ++ post1.map Event.call := by
        rw [hcalls, h2]
        simp
      have h4 : pre1.map Event.call ++ [ev.call] <+: r.world.calls := ⟨_, h3.symm⟩
      exact h4.trans hpre
    have hx : ev.call ∉ [Call.initializeLib, .fileCtor filename, .openFile] := by
      intro hmem
      simp only [List.mem_cons, List.mem_singleton, List.not_mem_nil, or_false] at hmem
      rcases hmem with h1 | h1 | h1 <;> rw [h1] at hread <;> cases hread
    have hopen : Call.openFile ∈ pre1.map Event.call :=
      (initial_of_concat hc hx).subset (by simp)
    obtain ⟨ev3, hev3, hcall⟩ := List.mem_map.mp hopen
    have : ev3 = ⟨.openFile, none⟩ := by
      cases ev3
      simp only [Event.mk.injEq]
      exact ⟨hcall, hq _ hev3⟩
    exact this ▸ hev3
  · intro pre1 ev post1 h hcl
    rw [ht] at h
    rcases before_last_quiet h with ⟨h1, -, -⟩ | ⟨post', -, h1⟩
    · exact h1
    · exfalso
      have hmem : Call.close ∈ pre := by
        have : ev ∈ quiet pre := by rw [h1]; simp
        have := List.mem_map_of_mem Event.call this
        rwa [quiet_calls, hcl] at this
      rw [lifecycle_eq_concat] at hL
      rcases split_concat hL.symm with ⟨-, h2, -⟩ | ⟨post2, -, h2⟩
      · exact hclose (h2 ▸ hmem)
      · exact hclose (h2 ▸ (by simp [hmem]))
  · have := hpre.sublist.count_le Call.close
    rwa [count_close_lifecycle] at this
  · intro hall
    have hfull : r.world.calls = lifecycle filename (lib.directory filename) := by
      rw [hcalls, hL]
      cases o with
      | none => simp [ho rfl]
      | some e =>
        have hc : c = .close := by
          by_contra hne
          have := hall ⟨c, some e⟩ (by simp [ht]) hne
          cases this
        subst hc
        rw [lifecycle_eq_concat] at hL
        rcases split_concat hL.symm with ⟨h1, -, -⟩ | ⟨post2, -, h2⟩
        · simp [h1]
        · exact absurd (h2 ▸ (by simp)) hclose
    refine ⟨hfull, ?_, ?_⟩
    · rw [hfull, count_close_lifecycle]
    · rw [hfull, lifecycle_eq_concat, List.getLast?_append]
      rfl

theorem main_lifecycle_witness :
    quietRun.world.calls = lifecycle "x.vdb" ["a", "ls_icosahedron"] ∧
    quietRun.world.calls.count .close = 1 :=
  have h := main_lifecycle quietLib "example" "x.vdb" quietRun (by decide)
  ⟨(h.2.2.2.2.2.2 (by decide)).1, (h.2.2.2.2.2.2 (by decide)).2.1⟩

/-! ### C7 and C10: runs in which only unrequested reads could fail -/

theorem gridOf_nil {Grid : Type} (lib : Library Grid) (f : String) (bg : Option Grid) :
    gridOf lib f [] bg = bg :=
  rfl

theorem gridOf_call {Grid : Type} (lib : Library Grid) (f : String) (c : Call)
    (as : List Action) (bg : Option Grid) :
    gridOf lib f (.call c :: as) bg = gridOf lib f as bg :=
  rfl

theorem gridOf_read {Grid : Type} (lib : Library Grid) (f : String) (n : String)
    (as : List Action) (bg : Option Grid) :
    gridOf lib f (.read n :: as) bg = gridOf lib f as (some (lib.grid f n)) :=
  rfl

theorem gridOf_out {Grid : Type} (lib : Library Grid) (f : String) (s : String)
    (as : List Action) (bg : Option Grid) :
    gridOf lib f (.out s :: as) bg = gridOf lib f as bg :=
  rfl

theorem gridOf_endl {Grid : Type} (lib : Library Grid) (f : String)
    (as : List Action) (bg : Option Grid) :
    gridOf lib f (.endl :: as) bg = gridOf lib f as bg :=
  rfl

theorem gridOf_append {Grid : Type} (lib : Library Grid) (f : String)
    (as bs : List Action) (bg : Option Grid) :
    gridOf lib f (as ++ bs) bg = gridOf lib f bs (gridOf lib f as bg) := by
  simp [gridOf, List.foldl_append]

theorem gridOf_bodyActions {Grid : Type} (lib : Library Grid) (f n : String)
    (bg : Option Grid) :
    gridOf lib f (bodyActions n) bg =
      if n = "ls_icosahedron" then some (lib.grid f "ls_icosahedron") else bg := by
  unfold bodyActions
  split
  · rename_i h
    subst h
    rfl
  · rfl

theorem gridOf_loopActions {Grid : Type} (lib : Library Grid) (f : String)
    (names : List String) (bg : Option Grid) :
    gridOf lib f (loopActions names) bg =
      if "ls_icosahedron" ∈ names then some (lib.grid f "ls_icosahedron") else bg := by
  induction names generalizing bg with
  | nil => simp [loopActions, gridOf_call, gridOf_nil]
  | cons n rest ih =>
    simp only [loopActions, gridOf_call, gridOf_append, gridOf_bodyActions, ih, List.mem_cons]
    by_cases h1 : n = "ls_icosahedron"
    · by_cases h2 : "ls_icosahedron" ∈ rest <;> simp [h1, h2]
    · have h1' : ¬ "ls_icosahedron" = n := fun h => h1 h.symm
      by_cases h2 : "ls_icosahedron" ∈ rest <;> simp [h1, h1', h2]

theorem gridOf_tryActions {Grid : Type} (lib : Library Grid) (f : String)
    (names : List String) :
    gridOf lib f (tryActions f names) none =
      if "ls_icosahedron" ∈ names then some (lib.grid f "ls_icosahedron") else none := by
  simp [tryActions, gridOf_call, gridOf_append, gridOf_nil, gridOf_loopActions]

theorem mem_bodyCalls_readGrid_self {n m : String} (h : Call.readGrid m ∈ bodyCalls n) :
    m = n := by
  unfold bodyCalls at h
  split at h <;> simp at h
  exact h

theorem mem_loopCalls_readGrid_mem {names : List String} {m : String}
    (h : Call.readGrid m ∈ loopCalls names) : m ∈ names := by
  induction names with
  | nil => simp [loopCalls] at h
  | cons n rest ih =>
    simp only [loopCalls, List.mem_cons, List.mem_append] at h
    rcases h with h | h | h | h
    · cases h
    · exact List.mem_cons.mpr (Or.inl (mem_bodyCalls_readGrid_self h))
    · cases h
    · exact List.mem_cons.mpr (Or.inr (ih h))

theorem mem_lifecycle_readGrid_mem {f : String} {names : List String} {m : String}
    (h : Call.readGrid m ∈ lifecycle f names) : m ∈ names := by
  simp [lifecycle] at h
  exact mem_loopCalls_readGrid_mem h

theorem readGrid_mem_loopCalls {names : List String} (h : "ls_icosahedron" ∈ names) :
    Call.readGrid "ls_icosahedron" ∈ loopCalls names := by
  induction names with
  | nil => simp at h
  | cons n rest ih =>
    simp only [loopCalls, List.mem_cons, List.mem_append]
    rcases List.mem_cons.mp h with h | h
    · right
      left
      simp [bodyCalls, ← h]
    · exact Or.inr (Or.inr (Or.inr (ih h)))

theorem readGrid_mem_lifecycle {f : String} {names : List String}
    (h : "ls_icosahedron" ∈ names) : Call.readGrid "ls_icosahedron" ∈ lifecycle f names := by
  simp [lifecycle, readGrid_mem_loopCalls h]

/-- When no call of `lifecycle` can raise, the whole `try` block is performed. -/
theorem main_of_quiet {Grid : Type} (lib : Library Grid) (prog f : String)
    (hq : ∀ c ∈ lifecycle f (lib.directory f), ∀ h, lib.raises h c = none) :
    main lib [prog, f] =
      some ⟨0, ⟨quiet (lifecycle f (lib.directory f)),
        outOf (tryActions f (lib.directory f)) OStream.empty, OStream.empty⟩⟩ ∧
    tryBlock lib f World.start =
      .ret (gridOf lib f (tryActions f (lib.directory f)) none)
        ⟨quiet (lifecycle f (lib.directory f)),
          outOf (tryActions f (lib.directory f)) OStream.empty, OStream.empty⟩ := by
  rcases main_two_cases lib prog f with ⟨hx, h⟩ | ⟨pre, a, post, c, e, h1, h2, h3, -⟩
  · rw [callsOf_tryActions] at hx h
    exact ⟨h, by rw [tryBlock_eq_exec]; exact hx⟩
  · have hmem : c ∈ lifecycle f (lib.directory f) := by
      rw [← callsOf_tryActions, h1, callsOf_split h2]
      simp
    rw [hq c hmem] at h3
    cases h3

/-- C7: for every archive in which a library call can fail only if it is a
`readGrid` for a name other than `ls_icosahedron` (header and directory parse,
and only payloads of other grids are damaged), the run returns 0, prints one
line for every grid name of the directory, writes nothing to standard error,
no call raises, and when `ls_icosahedron` is in the directory its grid is read
and is the value of `base_grid` at the end of the `try` block. -/
theorem main_isolation {Grid : Type} (lib : Library Grid) (prog filename : String)
    (hlib : ∀ h c e, lib.raises h c = some e →
      ∃ n, c = .readGrid n ∧ n ≠ "ls_icosahedron") :
    ∃ r, main lib [prog, filename] = some r ∧ r.code = 0 ∧
      r.world.cout =
        ⟨(lib.directory filename).map (fun n =>
          if n = "ls_icosahedron" then "Found grid " ++ n else "skipping grid " ++ n), ""⟩ ∧
      r.world.cerr = OStream.empty ∧
      (∀ ev ∈ r.world.trace, ev.raised = none) ∧
      ("ls_icosahedron" ∈ lib.directory filename →
        ⟨.readGrid "ls_icosahedron", none⟩ ∈ r.world.trace ∧
        ∃ w, tryBlock lib filename World.start =
          .ret (some (lib.grid filename "ls_icosahedron")) w) := by
  have hq : ∀ c ∈ lifecycle filename (lib.directory filename), ∀ h, lib.raises h c = none := by
    intro c hc h
    cases hr : lib.raises h c with
    | none => rfl
    | some e =>
      obtain ⟨n, rfl, hn⟩ := hlib h c e hr
      exact absurd (mem_lifecycle_readGrid hc) hn
  obtain ⟨h1, h2⟩ := main_of_quiet lib prog filename hq
  refine ⟨_, h1, rfl, outOf_tryActions _ _, rfl, fun ev hev => quiet_raised hev, ?_⟩
  intro hmem
  rw [gridOf_tryActions, if_pos hmem] at h2
  exact ⟨List.mem_map.mpr ⟨_, readGrid_mem_lifecycle hmem, rfl⟩, _, h2⟩

theorem main_isolation_witness :
    ∃ r, main damagedLib ["example", "x.vdb"] = some r ∧ r.code = 0 ∧
      r.world.cout = ⟨["skipping grid a", "Found grid ls_icosahedron"], ""⟩ ∧
      ⟨.readGrid "ls_icosahedron", none⟩ ∈ r.world.trace :=
  have hlib : ∀ h c e, damagedLib.raises h c = some e →
      ∃ n, c = .readGrid n ∧ n ≠ "ls_icosahedron" := by
    intro h c e hc
    simp only [damagedLib] at hc
    split at hc
    · rename_i h1
      exact ⟨"a", h1, by decide⟩
    · cases hc
  have ⟨r, h1, h2, h3, _, _, h6⟩ := main_isolation damagedLib "example" "x.vdb" hlib
  ⟨r, h1, h2, h3, (h6 (by decide)).1⟩

/-- C10: for every archive that opens (no call other than a `readGrid` can raise)
and whose directory has no entry named `ls_icosahedron`, the run never calls
`readGrid`, leaves `base_grid` empty, prints `skipping grid <name>` for every
directory entry and nothing else on standard output, writes nothing to
standard error, and returns 0. -/
theorem main_target_absent {Grid : Type} (lib : Library Grid) (prog filename : String)
    (hlib : ∀ h c e, lib.raises h c = some e → c.isReadGrid = true)
    (habs : "ls_icosahedron" ∉ lib.directory filename) :
    ∃ r, main lib [prog, filename] = some r ∧ r.code = 0 ∧
      (∀ c ∈ r.world.calls, c.isReadGrid = false) ∧
      r.world.cout = ⟨(lib.directory filename).map (fun n => "skipping grid " ++ n), ""⟩ ∧
      r.world.cerr = OStream.empty ∧
      ∃ w, tryBlock lib filename World.start = .ret none w := by
  have hnr : ∀ c ∈ lifecycle filename (lib.directory filename), c.isReadGrid = false := by
    intro c hc
    cases c with
    | readGrid m =>
      have h1 := mem_lifecycle_readGrid hc
      have h2 := mem_lifecycle_readGrid_mem hc
      exact absurd (h1 ▸ h2) habs
    | _ => rfl
  have hq : ∀ c ∈ lifecycle filename (lib.directory filename), ∀ h, lib.raises h c = none := by
    intro c hc h
    cases hr : lib.raises h c with
    | none => rfl
    | some e =>
      have := hlib h c e hr
      rw [hnr c hc] at this
      cases this
  obtain ⟨h1, h2⟩ := main_of_quiet lib prog filename hq
  rw [gridOf_tryActions, if_neg habs] at h2
  refine ⟨_, h1, rfl, ?_, ?_, rfl, _, h2⟩
  · intro c hc
    simp only [World.calls, quiet_calls] at hc
    exact hnr c hc
  · simp only [outOf_tryActions, OStream.mk.injEq, and_true]
    apply List.map_congr_left
    intro n hn
    have : n ≠ "ls_icosahedron" := fun h => habs (h ▸ hn)
    simp [this]

theorem main_target_absent_witness :
    ∃ r, main notFoundLib ["example", "x.vdb"] = some r ∧ r.code = 0 ∧
      r.world.cout = ⟨["skipping grid a"], ""⟩ ∧ r.world.cerr = OStream.empty :=
  have hlib : ∀ h c e, notFoundLib.raises h c = some e → c.isReadGrid = true := by
    intro h c e hc
    cases c <;> first | rfl | cases hc
  have ⟨r, h1, h2, _, h4, h5, _⟩ :=
    main_target_absent notFoundLib "example" "x.vdb" hlib (by decide)
  ⟨r, h1, h2, h4, h5⟩

/-! ### C8: no `Found grid` report on a run that fails -/

theorem startsWith_found (n : String) : startsWith "Found grid " ("Found grid " ++ n) = true := by
  simp [startsWith, List.isPrefixOf_iff_prefix]

theorem startsWith_skipping (n : String) :
    startsWith "Found grid " ("skipping grid " ++ n) = false := by
  simp only [startsWith, String.data_append]
  rfl

theorem foundOutputs_pending_found (ls : List String) :
    foundOutputs ⟨ls, "Found grid "⟩ = foundOutputs ⟨ls, ""⟩ + 1 := by
  have h1 : startsWith "Found grid " "Found grid " = true := by decide
  have h2 : startsWith "Found grid " "" = false := by decide
  simp [foundOutputs, h1, h2]

theorem foundOutputs_pending_skipping (ls : List String) :
    foundOutputs ⟨ls, "skipping grid "⟩ = foundOutputs ⟨ls, ""⟩ := by
  have h1 : startsWith "Found grid " "skipping grid " = false := by decide
  have h2 : startsWith "Found grid " "" = false := by decide
  simp [foundOutputs, h1, h2]

theorem foundOutputs_line_found (ls : List String) (n : String) :
    foundOutputs ⟨ls ++ ["Found grid " ++ n], ""⟩ = foundOutputs ⟨ls, ""⟩ + 1 := by
  simp only [foundOutputs, List.filter_append, List.filter_cons, startsWith_found, if_true,
    List.filter_nil, List.length_append, List.length_singleton]
  omega

theorem foundOutputs_line_skipping (ls : List String) (n : String) :
    foundOutputs ⟨ls ++ ["skipping grid " ++ n], ""⟩ = foundOutputs ⟨ls, ""⟩ := by
  simp [foundOutputs, List.filter_append, List.filter_cons, startsWith_skipping]

theorem returnedReads_returned (t : List Event) (c : Call) :
    returnedReads (t ++ [⟨c, none⟩]) = returnedReads t + if c.isReadGrid then 1 else 0 := by
  cases h : c.isReadGrid <;>
    simp [returnedReads, List.filter_append, List.filter_cons, Event.isReturnedRead, h]

theorem returnedReads_raised (t : List Event) (c : Call) (e : Thrown) :
    returnedReads (t ++ [⟨c, some e⟩]) = returnedReads t := by
  simp [returnedReads, List.filter_append, List.filter_cons, Event.isReturnedRead]

theorem returnedReads_quiet_cons (c : Call) (cs : List Call) :
    returnedReads (quiet (c :: cs)) =
      (if c.isReadGrid then 1 else 0) + returnedReads (quiet cs) := by
  cases hc : c.isReadGrid
  · simp [returnedReads, quiet_cons, List.filter_cons, Event.isReturnedRead, hc]
  · simp [returnedReads, quiet_cons, List.filter_cons, Event.isReturnedRead, hc]
    omega

/-- Running actions for which `foundOk` holds ends, normally or by an exception, in
a world in which the `Found grid ` outputs are as many as the returned reads. -/
theorem exec_foundOk {Grid : Type} (lib : Library Grid) (f : String) (as : List Action) :
    ∀ (bg : Option Grid) (w : World), foundOk w.cout (returnedReads w.trace) as →
      match exec lib f as bg w with
      | .ret _ w' => foundOutputs w'.cout = returnedReads w'.trace
      | .thrown _ w' => foundOutputs w'.cout = returnedReads w'.trace := by
  induction as with
  | nil =>
    intro bg w h
    exact h
  | cons a as ih =>
    intro bg w h
    cases a with
    | call c =>
      rw [exec_call]
      cases hc : lib.raises w.trace c with
      | some e =>
        simpa [World.record, returnedReads_raised] using h.1
      | none =>
        simp only
        apply ih
        simpa [World.record, returnedReads_returned] using h.2
    | read n =>
      rw [exec_read]
      cases hc : lib.raises w.trace (.readGrid n) with
      | some e =>
        simpa [World.record, returnedReads_raised] using h.1
      | none =>
        simp only
        apply ih
        simpa [World.record, returnedReads_returned, Call.isReadGrid] using h.2
    | out s =>
      rw [exec_out]
      exact ih _ _ h
    | endl =>
      rw [exec_endl]
      exact ih _ _ h

theorem foundOk_loopActions (names : List String) :
    ∀ (ls : List String) (k : Nat) (rest : List Action), foundOutputs ⟨ls, ""⟩ = k →
      (∀ ls' k', foundOutputs ⟨ls', ""⟩ = k' → foundOk ⟨ls', ""⟩ k' rest) →
      foundOk ⟨ls, ""⟩ k (loopActions names ++ rest) := by
  induction names with
  | nil =>
    intro ls k rest hk hrest
    exact ⟨hk, by simpa [Call.isReadGrid] using hrest ls k hk⟩
  | cons n names ih =>
    intro ls k rest hk hrest
    have hstep : ∀ ls' k', foundOutputs ⟨ls', ""⟩ = k' →
        foundOk ⟨ls', ""⟩ k' (.call .increment :: (loopActions names ++ rest)) := by
      intro ls' k' hk'
      exact ⟨hk', by simpa [Call.isReadGrid] using ih ls' k' rest hk' hrest⟩
    by_cases hn : n = "ls_icosahedron"
    · have hlist : loopActions (n :: names) ++ rest =
          .call .endName :: .call .gridName :: .call .gridName :: .read n ::
            .out "Found grid " :: .call .gridName :: .out n :: .endl ::
            .call .increment :: (loopActions names ++ rest) := by
        simp [loopActions, bodyActions, hn]
      rw [hlist]
      simp only [foundOk, Call.isReadGrid, Bool.false_eq_true, if_false, Nat.add_zero,
        OStream.write, OStream.endl, String.empty_append]
      refine ⟨hk, hk, hk, hk, ?_, ?_⟩
      · rw [foundOutputs_pending_found, hk]
      · exact hstep _ _ (by rw [foundOutputs_line_found, hk])
    · have hlist : loopActions (n :: names) ++ rest =
          .call .endName :: .call .gridName :: .out "skipping grid " :: .call .gridName ::
            .out n :: .endl :: .call .increment :: (loopActions names ++ rest) := by
        simp [loopActions, bodyActions, hn]
      rw [hlist]
      simp only [foundOk, Call.isReadGrid, Bool.false_eq_true, if_false, Nat.add_zero,
        OStream.write, OStream.endl, String.empty_append]
      refine ⟨hk, hk, ?_, ?_⟩
      · rw [foundOutputs_pending_skipping, hk]
      · exact hstep _ _ (by rw [foundOutputs_line_skipping, hk])

theorem foundOk_tryActions (f : String) (names : List String) :
    foundOk OStream.empty 0 (tryActions f names) := by
  have h0 : foundOutputs ⟨[], ""⟩ = 0 := by decide
  simp only [tryActions, foundOk, Call.isReadGrid, Bool.false_eq_true, if_false, Nat.add_zero,
    OStream.empty]
  refine ⟨h0, h0, h0, h0, ?_⟩
  apply foundOk_loopActions names [] 0 _ h0
  intro ls' k' hk'
  exact ⟨hk', by simpa [foundOk, Call.isReadGrid] using hk'⟩

/-- On every run the report `Found grid ` has been written to standard output
exactly as many times as a `readGrid` call has returned. -/
theorem main_found_outputs {Grid : Type} (lib : Library Grid) (argv : List String)
    (r : Run) (hr : main lib argv = some r) :
    foundOutputs r.world.cout = returnedReads r.world.trace := by
  by_cases h2 : argv.length = 2
  · obtain ⟨prog, f, rfl⟩ := length_two h2
    rw [main_two] at hr
    have h := exec_foundOk lib f (tryActions f (lib.directory f)) none World.start
      (foundOk_tryActions f _)
    cases hx : exec lib f (tryActions f (lib.directory f)) none World.start with
    | ret g w =>
      rw [hx] at hr h
      cases hr
      exact h
    | thrown e w =>
      rw [hx] at hr h
      cases hr
      rw [handler_cout, handler_trace]
      exact h
  · obtain ⟨-, ht, hc⟩ := main_usage_branch lib argv h2 r hr
    rw [ht, hc]
    decide

/-- A run with `argc == 2` that returns -1 stopped at a call of `lifecycle` that
the library made raise, after calls that all returned. -/
theorem main_failure {Grid : Type} (lib : Library Grid) (prog f : String) (r : Run)
    (hr : main lib [prog, f] = some r) (hfail : r.code = -1) :
    ∃ pre c post e, lifecycle f (lib.directory f) = pre ++ c :: post ∧
      lib.raises (quiet pre) c = some e ∧
      r.world.trace = quiet pre ++ [⟨c, some e⟩] := by
  rcases main_two_cases lib prog f with ⟨-, h⟩ | ⟨pre, a, post, c, e, h1, h2, h3, h⟩
  · rw [hr] at h
    cases h
    cases hfail
  · rw [hr] at h
    cases h
    refine ⟨callsOf pre, c, callsOf post, e, ?_, h3, ?_⟩
    · rw [← callsOf_tryActions, h1, callsOf_split h2]
    · rw [handler_trace]

theorem returnedReads_quiet (cs : List Call) :
    returnedReads (quiet cs) = (cs.filter Call.isReadGrid).length := by
  induction cs with
  | nil => rfl
  | cons c cs ih =>
    have h := returnedReads_quiet_cons c cs
    rw [h, ih]
    cases hc : c.isReadGrid
    · simp [List.filter_cons, hc]
    · simp [List.filter_cons, hc]
      omega

theorem mem_bodyCalls_kind {n : String} {c : Call} (h : c ∈ bodyCalls n) :
    c = .gridName ∨ c.isReadGrid = true := by
  unfold bodyCalls at h
  split at h
  · simp only [List.mem_cons, List.mem_singleton, List.not_mem_nil, or_false] at h
    rcases h with h | h | h | h
    · exact Or.inl h
    · exact Or.inl h
    · exact Or.inr (by rw [h]; rfl)
    · exact Or.inl h
  · simp only [List.mem_cons, List.mem_singleton, List.not_mem_nil, or_false] at h
    rcases h with h | h
    · exact Or.inl h
    · exact Or.inl h

/-- The loop makes name-iteration calls and `readGrid` calls only. -/
theorem mem_loopCalls_kind {names : List String} {c : Call} (h : c ∈ loopCalls names) :
    c = .endName ∨ c = .gridName ∨ c = .increment ∨ c.isReadGrid = true := by
  induction names with
  | nil =>
    simp only [loopCalls, List.mem_singleton] at h
    exact Or.inl h
  | cons n rest ih =>
    simp only [loopCalls, List.mem_cons, List.mem_append] at h
    rcases h with h | h | h | h
    · exact Or.inl h
    · rcases mem_bodyCalls_kind h with h1 | h1
      · exact Or.inr (Or.inl h1)
      · exact Or.inr (Or.inr (Or.inr h1))
    · exact Or.inr (Or.inr (Or.inl h))
    · exact ih h

/-- Before the calls `initialize`, `File` constructor and `open` of a run, no
`readGrid` call is made. -/
theorem no_reads_before_open {f : String} {names : List String} {pre post : List Call}
    {c : Call} (hL : lifecycle f names = pre ++ c :: post)
    (hc : c = .initializeLib ∨ (∃ g, c = .fileCtor g) ∨ c = .openFile) :
    (pre.filter Call.isReadGrid).length = 0 := by
  have hloop : c ∉ .beginName :: (loopCalls names ++ [.close]) := by
    intro hmem
    simp only [List.mem_cons, List.mem_append, List.mem_singleton, List.not_mem_nil,
      or_false] at hmem
    rcases hmem with h | h | h
    · subst h
      rcases hc with h | ⟨g, h⟩ | h <;> cases h
    · rcases mem_loopCalls_kind h with h1 | h1 | h1 | h1
      · subst h1
        rcases hc with h | ⟨g, h⟩ | h <;> cases h
      · subst h1
        rcases hc with h | ⟨g, h⟩ | h <;> cases h
      · subst h1
        rcases hc with h | ⟨g, h⟩ | h <;> cases h
      · rcases hc with h | ⟨g, h⟩ | h <;> subst h <;> cases h1
    · subst h
      rcases hc with h | ⟨g, h⟩ | h <;> cases h
  unfold lifecycle at hL
  match pre, hL with
  | [], _ => rfl
  | [p1], hL =>
    simp only [List.cons_append, List.nil_append, List.cons.injEq] at hL
    rw [← hL.1]
    rfl
  | [p1, p2], hL =>
    simp only [List.cons_append, List.nil_append, List.cons.injEq] at hL
    rw [← hL.1, ← hL.2.1]
    rfl
  | p1 :: p2 :: p3 :: pre', hL =>
    simp only [List.cons_append, List.cons.injEq] at hL
    exfalso
    apply hloop
    rw [hL.2.2.2]
    simp

theorem reads_split (pre post : List Call) (c : Call) :
    ((pre ++ c :: post).filter Call.isReadGrid).length =
      (pre.filter Call.isReadGrid).length + (if c.isReadGrid then 1 else 0) +
        (post.filter Call.isReadGrid).length := by
  cases hc : c.isReadGrid
  · simp [List.filter_append, List.filter_cons, hc]
  · simp [List.filter_append, List.filter_cons, hc]
    omega

/-- C8: for every archive whose name-iteration calls and `close()` return once it
is opened and whose directory has pairwise distinct names, every run that ends
on the exception path (exit code -1) has written no `Found grid` report: no
line of standard output begins with `Found grid `, nor does an unfinished
line, and no `readGrid` call has returned.  On every run the `Found grid `
reports are as many as the `readGrid` calls that returned, so the report is
written only after the `readGrid` call has returned. -/
theorem main_no_found_on_failure {Grid : Type} (lib : Library Grid)
    (prog filename : String) (r : Run) (hr : main lib [prog, filename] = some r)
    (hiter : ∀ h, lib.raises h .beginName = none ∧ lib.raises h .endName = none ∧
      lib.raises h .gridName = none ∧ lib.raises h .increment = none)
    (hclose : ∀ h, lib.raises h .close = none)
    (hnames : (lib.directory filename).Nodup) :
    foundOutputs r.world.cout = returnedReads r.world.trace ∧
    (r.code = -1 →
      returnedReads r.world.trace = 0 ∧
      (∀ line ∈ r.world.cout.lines, startsWith "Found grid " line = false) ∧
      startsWith "Found grid " r.world.cout.pending = false) := by
  have heq := main_found_outputs lib [prog, filename] r hr
  refine ⟨heq, ?_⟩
  intro hfail
  obtain ⟨pre, c, post, e, hL, hraise, ht⟩ := main_failure lib prog filename r hr hfail
  have hcount : ((lifecycle filename (lib.directory filename)).filter
      Call.isReadGrid).length ≤ 1 := by
    rw [reads_lifecycle]
    exact List.nodup_iff_count_le_one.mp hnames _
  have hpre : (pre.filter Call.isReadGrid).length = 0 := by
    cases c with
    | initializeLib => exact no_reads_before_open hL (Or.inl rfl)
    | fileCtor g => exact no_reads_before_open hL (Or.inr (Or.inl ⟨g, rfl⟩))
    | openFile => exact no_reads_before_open hL (Or.inr (Or.inr rfl))
    | beginName =>
      rw [(hiter _).1] at hraise
      cases hraise
    | endName =>
      rw [(hiter _).2.1] at hraise
      cases hraise
    | gridName =>
      rw [(hiter _).2.2.1] at hraise
      cases hraise
    | increment =>
      rw [(hiter _).2.2.2] at hraise
      cases hraise
    | close =>
      rw [hclose] at hraise
      cases hraise
    | readGrid n =>
      rw [hL, reads_split] at hcount
      simp only [Call.isReadGrid, if_true] at hcount
      omega
  have hzero : returnedReads r.world.trace = 0 := by
    rw [ht, returnedReads_raised, returnedReads_quiet, hpre]
  rw [hzero] at heq
  have hfound : (r.world.cout.lines.filter (startsWith "Found grid ")).length = 0 ∧
      (if startsWith "Found grid " r.world.cout.pending = true then 1 else 0) = 0 := by
    unfold foundOutputs at heq
    omega
  refine ⟨hzero, ?_, ?_⟩
  · intro line hline
    have hnil := List.filter_eq_nil_iff.mp (List.length_eq_zero.mp hfound.1) line hline
    simpa using hnil
  · by_contra hp
    have hp' : startsWith "Found grid " r.world.cout.pending = true := by simpa using hp
    rw [if_pos hp'] at hfound
    exact absurd hfound.2 (by decide)

theorem main_no_found_on_failure_witness :
    targetDamagedRun.code = -1 ∧
    targetDamagedRun.world.cout = ⟨["skipping grid a"], ""⟩ ∧
    ∀ line ∈ targetDamagedRun.world.cout.lines, startsWith "Found grid " line = false :=
  have hiter : ∀ h, targetDamagedLib.raises h .beginName = none ∧
      targetDamagedLib.raises h .endName = none ∧
      targetDamagedLib.raises h .gridName = none ∧
      targetDamagedLib.raises h .increment = none := fun _ => ⟨rfl, rfl, rfl, rfl⟩
  have h := main_no_found_on_failure targetDamagedLib "example" "x.vdb" targetDamagedRun
    (by decide) hiter (fun _ => rfl) (by decide)
  ⟨by decide, by decide, (h.2 (by decide)).2.1⟩

/-! ### C6: the loop and the direct read -/

/-- C6 (as stated, refuted): on an opened archive whose directory is `a`, where
`readGrid` fails with a not-found error for an absent name, the loop ends
normally with `base_grid` empty, whereas the direct call
`readGrid("ls_icosahedron")` fails. -/
theorem scan_differs_from_direct_read :
    (∀ h name, name ∉ notFoundLib.directory "x.vdb" →
      notFoundLib.raises h (.readGrid name) = some (.stdException "not found")) ∧
    (scanDirectory notFoundLib "x.vdb" (openedWorld "x.vdb")).result = .ok none ∧
    (directRead notFoundLib "x.vdb" (openedWorld "x.vdb")).result =
      .error (.stdException "not found") := by
  refine ⟨?_, rfl, rfl⟩
  intro h name hname
  simp only [notFoundLib] at hname ⊢
  rw [if_neg hname]

theorem scanDirectory_eq_exec {Grid : Type} (lib : Library Grid) (f : String) :
    scanDirectory lib f = exec lib f (.call .beginName :: loopActions (lib.directory f)) none := by
  simp only [scanDirectory, exec_cons, perform, bind_eq, pure_eq, Prog.bind_assoc,
    Prog.ret_bind, nameLoop_eq_exec, libCall_bind (List String)]

theorem directRead_eq {Grid : Type} (lib : Library Grid) (f : String) (w : World) :
    (directRead lib f w).result =
      resultOf (lib.raises w.trace (.readGrid "ls_icosahedron"))
        (some (lib.grid f "ls_icosahedron")) := by
  simp only [directRead, bind_eq, pure_eq, Prog.bind, libCall]
  cases lib.raises w.trace (.readGrid "ls_icosahedron") <;> rfl

/-- The value or failure of the loop when the name-iteration calls return and the
outcome of `readGrid("ls_icosahedron")` does not depend on the calls made
before it (`o` is that outcome). -/
theorem loop_result {Grid : Type} (lib : Library Grid) (f : String)
    (o : Option Thrown)
    (hend : ∀ h, lib.raises h .endName = none)
    (hname : ∀ h, lib.raises h .gridName = none)
    (hinc : ∀ h, lib.raises h .increment = none)
    (hdet : ∀ h, lib.raises h (.readGrid "ls_icosahedron") = o)
    (names : List String) :
    ∀ (bg : Option Grid) (w : World),
      (exec lib f (loopActions names) bg w).result =
        if "ls_icosahedron" ∈ names then resultOf o (some (lib.grid f "ls_icosahedron"))
        else .ok bg := by
  induction names with
  | nil =>
    intro bg w
    simp [loopActions, exec_call, hend, exec_nil, Outcome.result]
  | cons n names ih =>
    intro bg w
    by_cases hn : n = "ls_icosahedron"
    · subst hn
      have hlist : loopActions ("ls_icosahedron" :: names) =
          .call .endName :: .call .gridName :: .call .gridName :: .read "ls_icosahedron" ::
            .out "Found grid " :: .call .gridName :: .out "ls_icosahedron" :: .endl ::
            .call .increment :: loopActions names := by
        simp [loopActions, bodyActions]
      rw [hlist]
      simp only [exec_call, exec_read, exec_out, exec_endl, hend, hname, hinc, hdet,
        List.mem_cons, true_or, if_true]
      cases o with
      | some e => rfl
      | none =>
        simp only [ih]
        split <;> rfl
    · have hn' : ¬ "ls_icosahedron" = n := fun h => hn h.symm
      have hlist : loopActions (n :: names) =
          .call .endName :: .call .gridName :: .out "skipping grid " :: .call .gridName ::
            .out n :: .endl :: .call .increment :: loopActions names := by
        simp [loopActions, bodyActions, hn]
      rw [hlist]
      simp only [exec_call, exec_out, exec_endl, hend, hname, hinc, ih, List.mem_cons, hn',
        false_or]

/-- The loop over a directory without `ls_icosahedron` ends normally and leaves
`base_grid` as it was, when the name-iteration calls return. -/
theorem loop_absent {Grid : Type} (lib : Library Grid) (f : String)
    (hend : ∀ h, lib.raises h .endName = none)
    (hname : ∀ h, lib.raises h .gridName = none)
    (hinc : ∀ h, lib.raises h .increment = none)
    (names : List String) (habs : "ls_icosahedron" ∉ names) :
    ∀ (bg : Option Grid) (w : World),
      (exec lib f (loopActions names) bg w).result = .ok bg := by
  induction names with
  | nil =>
    intro bg w
    simp [loopActions, exec_call, hend, exec_nil, Outcome.result]
  | cons n names ih =>
    intro bg w
    have hn : n ≠ "ls_icosahedron" := fun h => habs (by simp [h])
    have hrest : "ls_icosahedron" ∉ names := fun h => habs (by simp [h])
    have hlist : loopActions (n :: names) =
        .call .endName :: .call .gridName :: .out "skipping grid " :: .call .gridName ::
          .out n :: .endl :: .call .increment :: loopActions names := by
      simp [loopActions, bodyActions, hn]
    rw [hlist]
    simp only [exec_call, exec_out, exec_endl, hend, hname, hinc, ih hrest]

/-- C6 (amended): on every opened archive on which the name-iteration calls return,
if the directory has an entry named `ls_icosahedron` and the outcome of
`readGrid("ls_icosahedron")` does not depend on the calls made before it, the
loop yields the same outcome (the same grid in `base_grid`, or the same
failure) as the single call `readGrid("ls_icosahedron")`; if the directory has
no such entry, the loop ends normally with `base_grid` empty. -/
theorem scan_eq_direct_read {Grid : Type} (lib : Library Grid) (filename : String)
    (w : World)
    (hscan : ∀ h, lib.raises h .beginName = none ∧ lib.raises h .endName = none ∧
      lib.raises h .gridName = none ∧ lib.raises h .increment = none) :
    ("ls_icosahedron" ∈ lib.directory filename →
      (∀ h h', lib.raises h (.readGrid "ls_icosahedron") =
        lib.raises h' (.readGrid "ls_icosahedron")) →
      (scanDirectory lib filename w).result = (directRead lib filename w).result) ∧
    ("ls_icosahedron" ∉ lib.directory filename →
      (scanDirectory lib filename w).result = .ok none) := by
  have key : ∀ o, (∀ h, lib.raises h (.readGrid "ls_icosahedron") = o) →
      (scanDirectory lib filename w).result =
        if "ls_icosahedron" ∈ lib.directory filename then
          resultOf o (some (lib.grid filename "ls_icosahedron"))
        else .ok none := by
    intro o ho
    rw [scanDirectory_eq_exec, exec_call, (hscan _).1]
    exact loop_result lib filename o (fun h => (hscan h).2.1) (fun h => (hscan h).2.2.1)
      (fun h => (hscan h).2.2.2) ho _ _ _
  refine ⟨?_, ?_⟩
  · intro hmem hdet
    rw [key (lib.raises [] (.readGrid "ls_icosahedron")) (fun h => hdet h []), if_pos hmem,
      directRead_eq, hdet w.trace []]
  · intro habs
    have hlib : ∀ h, lib.raises h .beginName = none := fun h => (hscan h).1
    rw [scanDirectory_eq_exec, exec_call, hlib]
    have := loop_absent lib filename (fun h => (hscan h).2.1) (fun h => (hscan h).2.2.1)
      (fun h => (hscan h).2.2.2) (lib.directory filename) habs none
      (w.record .beginName none)
    exact this

theorem scan_eq_direct_read_witness :
    (scanDirectory quietLib "x.vdb" (openedWorld "x.vdb")).result =
      (directRead quietLib "x.vdb" (openedWorld "x.vdb")).result :=
  (scan_eq_direct_read quietLib "x.vdb" (openedWorld "x.vdb")
    (fun _ => ⟨rfl, rfl, rfl, rfl⟩)).1 (by decide) (fun _ _ => rfl)

end VdbExample
